import Mathlib

/-!
# Connection groups: a shallow embedding of `group/client.go`

The Go package `group` keeps, for every `Group`, a map from member ids to
member values (a connection or a pointer to another group), and a package-level
table `groups` from group ids to group pointers.

Modelling choices:

* a Go map value is either the nil map or an allocated table; a table is a
  list of key/value pairs without repeated keys (`Table`).  Reading, `len` and
  `delete` are defined on the nil map, assigning to an entry of the nil map is a
  run-time panic;
* a value of type `interface{}` is described by its dynamic type (`Value`);
* a method with receiver `g *Group` is a function of the `Group` the receiver
  points to (the receiver is taken to be non-nil) returning the group after the
  call; `RegisterGroup` is a function of the package state (`State`);
* Go `int` and `time.Duration` values are integers; client.go only stores and
  compares them, no arithmetic is performed on them at run time.
-/

namespace group

/-! ## Values the code works with -/

/-- Modelled from the spec: the error values `utils.InvalidArgs`,
`utils.OutOfMaxCnt`, `utils.IdNotFound` and `utils.DuplicatedId` are declared
in package `utils`, outside client.go; the spec (§6, §7) lists them as four
distinct identifiers a caller can branch on. -/
inductive Err
  | InvalidArgs
  | OutOfMaxCnt
  | IdNotFound
  | DuplicatedId
  deriving DecidableEq, Repr

/-- A Go `error` result: `none` is the nil error. -/
abbrev error := Option Err

/-- A pointer to a `Group`, by address. -/
abbrev Ptr := Nat

/-- Modelled from the spec: the interface `ws.Conn` is declared in package
`ws`, outside client.go.  A value of Go type `interface{}` is described by its
dynamic type: the nil interface value, a value whose dynamic type implements
`ws.Conn` (the spec's connection capability), a `*Group` pointer (the spec's
sub-group reference), or a value of any other dynamic type. -/
inductive Value
  | nil
  | conn (c : Nat)
  | groupPtr (p : Ptr)
  | other (tag : Nat)
  deriving DecidableEq, Repr

/-- The type assertion `_, ok := key.(ws.Conn)`. -/
def isConn : Value → Bool
  | Value.conn _ => true
  | _ => false

/-- The type assertion `_, ok := key.(*Group)`. -/
def isGroupPtr : Value → Bool
  | Value.groupPtr _ => true
  | _ => false

/-- Modelled from the spec: `ws.Upgrader` and `ws.WrappedGorillaUpgrader` are
declared in package `ws`, outside client.go.  An upgrader is either the
default one, `&ws.WrappedGorillaUpgrader{}`, or one supplied by the caller. -/
inductive Upgrader
  | wrappedGorilla
  | custom (tag : Nat)
  deriving DecidableEq, Repr

/-- A `context.Context` argument; client.go never inspects it. -/
inductive Context
  | background
  | custom (tag : Nat)
  deriving DecidableEq, Repr

/-- The type of the two hook fields,
`func(ctx context.Context, id string, msgType int, msg []byte) error`. -/
abbrev HookFunc := Context → String → Int → List Nat → error

/-! ## Go maps with string keys -/

/-- An allocated Go map with string keys: its entries, no key twice. -/
structure Table (V : Type) where
  entries : List (String × V)
  nodup : (entries.map Prod.fst).Nodup

namespace Table

variable {V : Type}

/-- The keys of a table. -/
def keys (t : Table V) : List String := t.entries.map Prod.fst

/-- The table `make(map[string]V)`. -/
def empty : Table V := ⟨[], List.nodup_nil⟩

/-- The entries left when key `k` is taken out. -/
def without (k : String) (l : List (String × V)) : List (String × V) :=
  l.filter (fun e => decide (e.1 ≠ k))

/-- The value stored under `k`, if any. -/
def find (k : String) : List (String × V) → Option V
  | [] => none
  | e :: rest => if e.1 = k then some e.2 else find k rest

/-- The read `v, ok := t[k]`: `some v` when `ok`, `none` otherwise. -/
def get (t : Table V) (k : String) : Option V := find k t.entries

/-- The number of entries, `len(t)`. -/
def size (t : Table V) : Nat := t.entries.length

/-- The write `t[k] = v`: an entry of `k` is replaced, no other entry changes. -/
def insert (t : Table V) (k : String) (v : V) : Table V where
  entries := without k t.entries ++ [(k, v)]
  nodup := by
    have hsub : ((without k t.entries).map Prod.fst).Nodup :=
      List.Nodup.sublist (List.Sublist.map Prod.fst (List.filter_sublist t.entries)) t.nodup
    rw [List.map_append, List.nodup_append]
    refine ⟨hsub, by simp, ?_⟩
    intro a ha hk
    simp only [List.map_cons, List.map_nil, List.mem_singleton] at hk
    simp only [without, List.mem_map, List.mem_filter] at ha
    obtain ⟨e, ⟨_, he⟩, rfl⟩ := ha
    simp at he
    exact he hk

/-- The builtin `delete(t, k)`. -/
def erase (t : Table V) (k : String) : Table V where
  entries := without k t.entries
  nodup :=
    List.Nodup.sublist (List.Sublist.map Prod.fst (List.filter_sublist t.entries)) t.nodup

end Table

/-- A Go map value of type `map[string]V`: `none` is the nil map. -/
abbrev GoMap (V : Type) := Option (Table V)

/-- The builtin `len(m)`; the nil map has length 0. -/
def len {V : Type} : GoMap V → Nat
  | none => 0
  | some t => t.size

/-- The read `v, exist := m[k]`; nothing exists in the nil map. -/
def index {V : Type} : GoMap V → String → Option V
  | none, _ => none
  | some t, k => t.get k

/-- The builtin `delete(m, k)`; a no-op on the nil map. -/
def delete {V : Type} : GoMap V → String → GoMap V
  | none, _ => none
  | some t, k => some (t.erase k)

/-- The type `Map`, `map[string]interface{}`. -/
abbrev Map := GoMap Value

/-! ## The group -/

/-- The struct `Group`. -/
structure Group where
  groupMap : Map
  id : String
  maxConnCnt : Int
  heartCheck : Int
  maxConnDuration : Int
  WsUpgrader : Option Upgrader
  beforeHandleHookFunc : Option HookFunc
  afterHandleHookFunc : Option HookFunc

/-- What a call that may panic leaves: a run-time panic, or the returned error
together with the state after the call. -/
inductive Result (σ : Type)
  | panic
  | ret (err : error) (st : σ)

/-- The method `GetGroupMap`. -/
def Group.GetGroupMap (g : Group) : Map := g.groupMap

/-- The method `AddNewConnWithId`. -/
def Group.AddNewConnWithId (g : Group) (id : String) (key : Value) : Result Group :=
  let ok1 := isConn key
  let ok2 := isGroupPtr key
  if key = Value.nil ∨ (ok1 = false ∧ ok2 = false) then
    Result.ret (some Err.InvalidArgs) g
  else if (len g.groupMap : Int) > g.maxConnCnt then
    Result.ret (some Err.OutOfMaxCnt) g
  else
    match g.GetGroupMap with
    | none => Result.panic
    | some t => Result.ret none { g with groupMap := some (t.insert id key) }

/-- The method `DeleteConnById`: the returned error and the group after the
call. -/
def Group.DeleteConnById (g : Group) (id : String) : error × Group :=
  let groupMap := g.GetGroupMap
  match index groupMap id with
  | none => (some Err.IdNotFound, g)
  | some _ => (none, { g with groupMap := delete groupMap id })

/-- The method `GetConnById`: the returned value, the returned error and the
group after the call. -/
def Group.GetConnById (g : Group) (id : String) : Value × error × Group :=
  let groupMap := g.GetGroupMap
  match index groupMap id with
  | none => (Value.nil, some Err.IdNotFound, g)
  | some i => (i, none, g)

/-! ## The builders -/

/-- The constant `time.Minute`, in nanoseconds. -/
def time.Minute : Int := 60 * 1000000000

/-- The constant `time.Hour`, in nanoseconds. -/
def time.Hour : Int := 60 * time.Minute

/-- Modelled from the spec: the type `Option` and the six functions
`WithUpgrader`, `WithGroupId`, `WithHeartCheck`, `WithMaxConnCnt`,
`WithMaxConnDuration` and `WithGroupMap` are declared outside client.go.  The
spec (§6) gives them as a fixed enumerated set, each setting exactly one field
of the group; an option value is the call that made it. -/
inductive GroupOption
  | WithUpgrader (u : Option Upgrader)
  | WithGroupId (id : String)
  | WithHeartCheck (d : Int)
  | WithMaxConnCnt (n : Int)
  | WithMaxConnDuration (d : Int)
  | WithGroupMap (m : Map)

/-- The function `appendDefault`. -/
def appendDefault (opts : List GroupOption) : List GroupOption :=
  opts ++
    [GroupOption.WithUpgrader (some Upgrader.wrappedGorilla),
     GroupOption.WithGroupId "", GroupOption.WithHeartCheck time.Minute,
     GroupOption.WithMaxConnCnt 100, GroupOption.WithMaxConnDuration (time.Hour * 24 * 30),
     GroupOption.WithGroupMap none]

/-- The composite literal `&Group{}`: every field has the zero value of its
type. -/
def zeroGroup : Group where
  groupMap := none
  id := ""
  maxConnCnt := 0
  heartCheck := 0
  maxConnDuration := 0
  WsUpgrader := none
  beforeHandleHookFunc := none
  afterHandleHookFunc := none

/-- The function `NewDefaultGroupWithContextAndUpgrader`: the group the returned
pointer points to, and the returned error.  The list `appendDefault(opts...)` is
assigned to `opts` and not read again. -/
def NewDefaultGroupWithContextAndUpgrader (_ctx : Context) (opts : List GroupOption) :
    Group × error :=
  let g := zeroGroup
  let _opts := appendDefault opts
  (g, none)

/-- The function `NewDefaultGroupAndUpgrader`. -/
def NewDefaultGroupAndUpgrader (opts : List GroupOption) : Group × error :=
  let ctx := Context.background
  NewDefaultGroupWithContextAndUpgrader ctx opts

/-- The function `NewGroupWithContext`; the group starts as
`&Group{WsUpgrader: upgrader}`. -/
def NewGroupWithContext (_ctx : Context) (upgrader : Option Upgrader)
    (opts : List GroupOption) : Group × error :=
  let g := { zeroGroup with WsUpgrader := upgrader }
  let _opts := appendDefault opts
  (g, none)

/-! ## The registry -/

/-- The package state `RegisterGroup` works on: the groups that group pointers
point to (`none` for the nil pointer) and the package variable `groups`. -/
structure State where
  heap : Ptr → Option Group
  groups : GoMap Ptr

/-- The declaration `var groups map[string]*Group`: the variable starts as the
zero value of its type, the nil map. -/
def groups : GoMap Ptr := none

/-- The function `RegisterGroup`.  Reading `group.id` through the nil pointer
panics, and so does the assignment when `groups` is the nil map. -/
def RegisterGroup (s : State) (_ctx : Context) (group : Ptr) : Result State :=
  match s.heap group with
  | none => Result.panic
  | some g =>
    match index s.groups g.id with
    | some _ => Result.ret (some Err.DuplicatedId) s
    | none =>
      match s.groups with
      | none => Result.panic
      | some t => Result.ret none { s with groups := some (t.insert g.id group) }

/-! ## Predicates of the specification -/

/-- Invariant I1 of the specification: the number of members is at most the
capacity. -/
def I1 (g : Group) : Prop := (len g.groupMap : Int) ≤ g.maxConnCnt

/-- A key that `AddNewConnWithId` rejects as an invalid argument: nil, or
neither a `ws.Conn` nor a `*Group`. -/
def invalidKey (key : Value) : Prop :=
  key = Value.nil ∨ (isConn key = false ∧ isGroupPtr key = false)

/-- The keys of a Go map; the nil map has none. -/
def keysOf {V : Type} : GoMap V → List String
  | none => []
  | some t => t.keys

/-- A table given by a list of entries with distinct keys. -/
def Table.ofList {V : Type} (l : List (String × V)) (h : (l.map Prod.fst).Nodup) : Table V :=
  ⟨l, h⟩

/-- A group with the given member map and capacity, every other field zero. -/
def groupWith (m : Map) (cap : Int) : Group :=
  { zeroGroup with groupMap := m, maxConnCnt := cap }

/-! ## Concrete members and tables used at concrete inputs -/

/-- Three connection handles. -/
def conn1 : Value := Value.conn 1

/-- The second connection handle. -/
def conn2 : Value := Value.conn 2

/-- The third connection handle. -/
def conn3 : Value := Value.conn 3

/-- The member map holding "a". -/
def tableA : Table Value := Table.ofList [("a", conn1)] (by decide)

/-- The member map holding "a" and "b". -/
def tableAB : Table Value := Table.ofList [("a", conn1), ("b", conn2)] (by decide)

/-- The member map holding "a", "b" and "c". -/
def tableABC : Table Value :=
  Table.ofList [("a", conn1), ("b", conn2), ("c", conn3)] (by decide)

/-- The member map holding "b" and "c". -/
def tableBC : Table Value := Table.ofList [("b", conn2), ("c", conn3)] (by decide)

/-- A package state with an allocated, empty registry and two distinct groups,
at the addresses 1 and 2, that both have the empty id. -/
def twoGroupsState : State where
  heap := fun p =>
    if p = 1 then some (groupWith none 0)
    else if p = 2 then some (groupWith (some tableA) 5)
    else none
  groups := some Table.empty

/-- The state `twoGroupsState` once the group at address 1 is registered. -/
def firstRegisteredState : State :=
  { twoGroupsState with groups := some (Table.ofList [("", 1)] (by decide)) }

/-- The configuration fields of two groups agree: every field of `Group` but the
member map. -/
def sameConfig (g g' : Group) : Prop :=
  g'.id = g.id ∧ g'.maxConnCnt = g.maxConnCnt ∧ g'.heartCheck = g.heartCheck ∧
  g'.maxConnDuration = g.maxConnDuration ∧ g'.WsUpgrader = g.WsUpgrader ∧
  g'.beforeHandleHookFunc = g.beforeHandleHookFunc ∧
  g'.afterHandleHookFunc = g.afterHandleHookFunc

/-- The calls `AddNewConnWithId(id, key)` of a list run one after the other on
the same group, each to completion before the next starts: the errors they
return, in order, and the group they leave; `none` when a call panics. -/
def addAll (g : Group) : List (String × Value) → Option (List error × Group)
  | [] => some ([], g)
  | c :: rest =>
    match g.AddNewConnWithId c.1 c.2 with
    | Result.panic => none
    | Result.ret e g' =>
      match addAll g' rest with
      | none => none
      | some (es, gf) => some (e :: es, gf)

/-- The package state at process start for a given heap: the variable `groups`
has the value of its declaration. -/
def startState (heap : Ptr → Option Group) : State :=
  { heap := heap, groups := groups }

end group

/-! ## Lemmas on tables -/

namespace group

namespace Table

variable {V : Type}

theorem find_eq_none_iff (k : String) (l : List (String × V)) :
    find k l = none ↔ k ∉ l.map Prod.fst := by
  induction l with
  | nil => simp [find]
  | cons e rest ih =>
    by_cases h : e.1 = k
    · simp [find, h]
    · have h' : ¬ k = e.1 := fun hk => h hk.symm
      simp [find, h, h', ih]

theorem find_without_self (k : String) (l : List (String × V)) :
    find k (without k l) = none := by
  rw [find_eq_none_iff]
  simp [without, List.mem_filter]

theorem find_without_ne {k k' : String} (hne : k' ≠ k) (l : List (String × V)) :
    find k' (without k l) = find k' l := by
  induction l with
  | nil => simp [without, find]
  | cons e rest ih =>
    by_cases h : e.1 = k
    · have h' : ¬ e.1 = k' := fun hk => hne (hk.symm.trans h)
      have : without k (e :: rest) = without k rest := by simp [without, h]
      rw [this, ih]
      simp [find, h']
    · have : without k (e :: rest) = e :: without k rest := by simp [without, h]
      rw [this]
      simp only [find, ih]

theorem find_append_single (k k' : String) (v : V) (l : List (String × V)) :
    find k' (l ++ [(k, v)]) =
      match find k' l with
      | some w => some w
      | none => if k = k' then some v else none := by
  induction l with
  | nil => simp [find]
  | cons e rest ih =>
    by_cases h : e.1 = k'
    · simp [find, h]
    · simp [find, h, ih]

theorem get_insert_self (t : Table V) (k : String) (v : V) :
    (t.insert k v).get k = some v := by
  simp [get, insert, find_append_single, find_without_self]

theorem get_insert_ne (t : Table V) {k k' : String} (v : V) (hne : k' ≠ k) :
    (t.insert k v).get k' = t.get k' := by
  have h : ¬ k = k' := fun hk => hne hk.symm
  simp only [get, insert, find_append_single, find_without_ne hne, h, if_false]
  cases find k' t.entries <;> rfl

theorem get_erase_self (t : Table V) (k : String) : (t.erase k).get k = none := by
  simp [get, erase, find_without_self]

theorem get_erase_ne (t : Table V) {k k' : String} (hne : k' ≠ k) :
    (t.erase k).get k' = t.get k' := by
  simp [get, erase, find_without_ne hne]

theorem get_eq_none_iff (t : Table V) (k : String) : t.get k = none ↔ k ∉ t.keys :=
  find_eq_none_iff k t.entries

theorem ext_entries {t u : Table V} (h : t.entries = u.entries) : t = u := by
  cases t
  cases u
  cases h
  rfl

theorem without_of_not_mem {k : String} {l : List (String × V)}
    (h : k ∉ l.map Prod.fst) : without k l = l := by
  unfold without
  rw [List.filter_eq_self]
  intro e he
  have hne : e.1 ≠ k := fun hk => h (hk ▸ List.mem_map_of_mem Prod.fst he)
  simpa using hne

theorem length_without_le (k : String) (l : List (String × V)) :
    (without k l).length ≤ l.length :=
  List.length_filter_le _ l

theorem length_without_of_mem {k : String} {l : List (String × V)}
    (hnd : (l.map Prod.fst).Nodup) (h : k ∈ l.map Prod.fst) :
    (without k l).length + 1 = l.length := by
  induction l with
  | nil => simp at h
  | cons e rest ih =>
    rw [List.map_cons, List.nodup_cons] at hnd
    by_cases hk : e.1 = k
    · have hnot : k ∉ rest.map Prod.fst := hk ▸ hnd.1
      have h1 : without k (e :: rest) = without k rest := by simp [without, hk]
      rw [h1, without_of_not_mem hnot, List.length_cons]
    · have hin : k ∈ rest.map Prod.fst := by
        rw [List.map_cons, List.mem_cons] at h
        rcases h with h | h
        · exact absurd h.symm hk
        · exact h
      have h1 : without k (e :: rest) = e :: without k rest := by simp [without, hk]
      rw [h1, List.length_cons, List.length_cons, ih hnd.2 hin]

theorem size_insert_le (t : Table V) (k : String) (v : V) :
    (t.insert k v).size ≤ t.size + 1 := by
  simp only [size, insert, List.length_append, List.length_singleton]
  exact Nat.succ_le_succ (length_without_le k t.entries)

theorem size_insert_of_mem (t : Table V) {k : String} (v : V) (h : k ∈ t.keys) :
    (t.insert k v).size = t.size := by
  simp only [size, insert, List.length_append, List.length_singleton]
  exact length_without_of_mem t.nodup h

theorem size_insert_of_not_mem (t : Table V) {k : String} (v : V) (h : k ∉ t.keys) :
    (t.insert k v).size = t.size + 1 := by
  simp only [size, insert, List.length_append, List.length_singleton]
  rw [without_of_not_mem h]

theorem erase_insert_of_not_mem (t : Table V) {k : String} (v : V) (h : k ∉ t.keys) :
    (t.insert k v).erase k = t := by
  apply ext_entries
  have h1 : without k (without k t.entries ++ [(k, v)]) = without k t.entries := by
    simp [without, List.filter_append]
  simp only [erase, insert, h1]
  exact without_of_not_mem h

end Table

theorem index_eq_none_iff {V : Type} (m : GoMap V) (k : String) :
    index m k = none ↔ k ∉ keysOf m := by
  cases m with
  | none => simp [index, keysOf]
  | some t => exact Table.get_eq_none_iff t k

theorem index_delete_self {V : Type} (m : GoMap V) (k : String) :
    index (delete m k) k = none := by
  cases m with
  | none => rfl
  | some t => exact Table.get_erase_self t k

theorem index_delete_ne {V : Type} (m : GoMap V) {k k' : String} (hne : k' ≠ k) :
    index (delete m k) k' = index m k' := by
  cases m with
  | none => rfl
  | some t => exact Table.get_erase_ne t hne

end group

/-! ## The capacity check -/

namespace group

/-- C1, the code at the failing input: a group of capacity 2 already holds the
2 members "a" and "b", the id "c" is not a member and the handle is a valid
connection.  The claim asks for `OutOfMaxCnt` and an unchanged member map; the
code returns the nil error and the member map now holds 3 members. -/
theorem AddNewConnWithId_at_capacity_accepts :
    (len (groupWith (some tableAB) 2).groupMap : Int) = (groupWith (some tableAB) 2).maxConnCnt ∧
    "c" ∉ keysOf (groupWith (some tableAB) 2).groupMap ∧
    ¬ invalidKey conn3 ∧
    (groupWith (some tableAB) 2).AddNewConnWithId "c" conn3
      = Result.ret none (groupWith (some tableABC) 2) ∧
    len (groupWith (some tableABC) 2).groupMap = 3 := by
  refine ⟨rfl, by decide, ?_, rfl, rfl⟩
  unfold invalidKey
  decide

/-- C2, the code at the failing input: the empty group of capacity 1 satisfies
I1, two calls of `AddNewConnWithId` with the distinct ids "a" and "b" both
return the nil error, and the group they leave has 2 members: I1 held before
the second call and does not hold after it. -/
theorem I1_not_preserved_by_AddNewConnWithId :
    I1 (groupWith (some Table.empty) 1) ∧
    (groupWith (some Table.empty) 1).AddNewConnWithId "a" conn1
      = Result.ret none (groupWith (some tableA) 1) ∧
    I1 (groupWith (some tableA) 1) ∧
    (groupWith (some tableA) 1).AddNewConnWithId "b" conn2
      = Result.ret none (groupWith (some tableAB) 1) ∧
    ¬ I1 (groupWith (some tableAB) 1) := by
  refine ⟨?_, rfl, ?_, rfl, ?_⟩ <;> unfold I1 <;> decide

/-- C3, the scenario run on the code: with capacity 2 and an empty member map,
the five calls return nil, nil, nil, nil, nil.  The third call, adding "c" to
the group that holds "a" and "b", returns the nil error where the claim says
`OutOfMaxCnt`; the final member map is "b" with conn2 and "c" with conn3. -/
theorem scenario_capacity_two :
    (groupWith (some Table.empty) 2).AddNewConnWithId "a" conn1
      = Result.ret none (groupWith (some tableA) 2) ∧
    (groupWith (some tableA) 2).AddNewConnWithId "b" conn2
      = Result.ret none (groupWith (some tableAB) 2) ∧
    (groupWith (some tableAB) 2).AddNewConnWithId "c" conn3
      = Result.ret none (groupWith (some tableABC) 2) ∧
    (groupWith (some tableABC) 2).DeleteConnById "a"
      = (none, groupWith (some tableBC) 2) ∧
    (groupWith (some tableBC) 2).AddNewConnWithId "c" conn3
      = Result.ret none (groupWith (some tableBC) 2) ∧
    tableBC.entries = [("b", conn2), ("c", conn3)] :=
  ⟨rfl, rfl, rfl, rfl, rfl, rfl⟩

/-! ## The builders -/

/-- C4, the code at the failing input: for the empty option list both default
builders return the zero group, so the capacity is 0 (the claim: 100), the
heartbeat interval 0 (the claim: one minute), the maximal duration 0 (the
claim: 30 days), the upgrader nil (the claim: the default upgrader) and the
member map the nil map. -/
theorem NewDefaultGroupAndUpgrader_without_options (ctx : Context) :
    NewDefaultGroupAndUpgrader [] = (zeroGroup, none) ∧
    NewDefaultGroupWithContextAndUpgrader ctx [] = (zeroGroup, none) ∧
    (NewDefaultGroupAndUpgrader []).1.id = "" ∧
    (NewDefaultGroupAndUpgrader []).1.heartCheck = 0 ∧
    (NewDefaultGroupAndUpgrader []).1.maxConnCnt = 0 ∧
    (NewDefaultGroupAndUpgrader []).1.maxConnDuration = 0 ∧
    (NewDefaultGroupAndUpgrader []).1.WsUpgrader = none ∧
    (NewDefaultGroupAndUpgrader []).1.groupMap = none ∧
    time.Minute ≠ 0 ∧ time.Hour * 24 * 30 ≠ 0 :=
  ⟨rfl, rfl, rfl, rfl, rfl, rfl, rfl, rfl, by decide, by decide⟩

/-- C5, the code on user options: whatever the option list is, the builders
return the same group as for the empty list; a list that starts with
`WithMaxConnCnt(n)` yields capacity 0 and one that starts with `WithGroupId(s)`
yields the empty id. -/
theorem builders_ignore_options (ctx : Context) (u : Option Upgrader) (n : Int) (s : String)
    (opts : List GroupOption) :
    NewDefaultGroupAndUpgrader opts = NewDefaultGroupAndUpgrader [] ∧
    NewDefaultGroupWithContextAndUpgrader ctx opts
      = NewDefaultGroupWithContextAndUpgrader ctx [] ∧
    NewGroupWithContext ctx u opts = NewGroupWithContext ctx u [] ∧
    (NewDefaultGroupAndUpgrader (GroupOption.WithMaxConnCnt n :: opts)).1.maxConnCnt = 0 ∧
    (NewDefaultGroupAndUpgrader (GroupOption.WithGroupId s :: opts)).1.id = "" ∧
    (NewGroupWithContext ctx u (GroupOption.WithMaxConnCnt n :: opts)).1.maxConnCnt = 0 ∧
    (NewGroupWithContext ctx u (GroupOption.WithGroupId s :: opts)).1.id = "" :=
  ⟨rfl, rfl, rfl, rfl, rfl, rfl, rfl⟩

end group

/-! ## Membership operations -/

namespace group

/-- C6: `AddNewConnWithId(id, key)` returns `InvalidArgs` if and only if `key`
is nil or is neither a `ws.Conn` nor a `*Group`, for every group (whatever its
member count and capacity are), and a call that returns `InvalidArgs` leaves
the group, its member map included, as it was. -/
theorem AddNewConnWithId_InvalidArgs_iff (g : Group) (id : String) (key : Value) :
    ((∃ g', g.AddNewConnWithId id key = Result.ret (some Err.InvalidArgs) g') ↔ invalidKey key) ∧
    (invalidKey key → g.AddNewConnWithId id key = Result.ret (some Err.InvalidArgs) g) ∧
    (∀ g', g.AddNewConnWithId id key = Result.ret (some Err.InvalidArgs) g' → g' = g) := by
  by_cases hk : invalidKey key
  · have hret : g.AddNewConnWithId id key = Result.ret (some Err.InvalidArgs) g := by
      unfold invalidKey at hk
      simp only [Group.AddNewConnWithId, hk, if_true]
    refine ⟨⟨fun _ => hk, fun _ => ⟨g, hret⟩⟩, fun _ => hret, ?_⟩
    intro g' hg'
    rw [hret] at hg'
    injection hg' with _ hst
    exact hst.symm
  · have hno : ∀ g', g.AddNewConnWithId id key ≠ Result.ret (some Err.InvalidArgs) g' := by
      intro g' hg'
      unfold invalidKey at hk
      simp only [Group.AddNewConnWithId, hk, if_false] at hg'
      split at hg'
      · injection hg' with herr _
        cases herr
      · split at hg'
        · cases hg'
        · injection hg' with herr _
          cases herr
    exact ⟨⟨fun ⟨g', hg'⟩ => absurd hg' (hno g'), fun h => absurd h hk⟩,
      fun h => absurd h hk, fun g' hg' => absurd hg' (hno g')⟩

end group

namespace group

/-- What a successful `AddNewConnWithId` says about its input and its output:
the key is valid, the count is not above the capacity, the member map is an
allocated table, and the group after the call differs by the one write. -/
theorem AddNewConnWithId_success_inv {g g' : Group} {id : String} {key : Value}
    (hadd : g.AddNewConnWithId id key = Result.ret none g') :
    ¬ invalidKey key ∧ ¬ (len g.groupMap : Int) > g.maxConnCnt ∧
    ∃ t, g.groupMap = some t ∧ g' = { g with groupMap := some (t.insert id key) } := by
  unfold Group.AddNewConnWithId at hadd
  simp only at hadd
  split at hadd
  · injection hadd with herr _
    cases herr
  · rename_i hk
    split at hadd
    · injection hadd with herr _
      cases herr
    · rename_i hcap
      refine ⟨hk, hcap, ?_⟩
      unfold Group.GetGroupMap at hadd
      cases hm : g.groupMap with
      | none =>
        rw [hm] at hadd
        cases hadd
      | some t =>
        rw [hm] at hadd
        simp only at hadd
        injection hadd with _ hst
        exact ⟨t, rfl, by rw [← hst]⟩

/-- C7: when `AddNewConnWithId(id, h)` succeeds, the handle was valid, the
resulting map sends `id` to `h`, `GetConnById(id)` on the resulting group
returns `(h, nil)`, and every other key has the same presence and the same
value as before the call. -/
theorem AddNewConnWithId_success_frame (g g' : Group) (id : String) (h : Value)
    (hadd : g.AddNewConnWithId id h = Result.ret none g') :
    ¬ invalidKey h ∧
    index g'.groupMap id = some h ∧
    g'.GetConnById id = (h, none, g') ∧
    (∀ id', id' ≠ id → index g'.groupMap id' = index g.groupMap id') ∧
    (∀ id', id' ≠ id → (id' ∈ keysOf g'.groupMap ↔ id' ∈ keysOf g.groupMap)) := by
  obtain ⟨hk, _, t, hm, hg'⟩ := AddNewConnWithId_success_inv hadd
  have hself : index g'.groupMap id = some h := by
    rw [hg']
    exact Table.get_insert_self t id h
  have hother : ∀ id', id' ≠ id → index g'.groupMap id' = index g.groupMap id' := by
    intro id' hne
    rw [hg', hm]
    exact Table.get_insert_ne t h hne
  refine ⟨hk, hself, ?_, hother, ?_⟩
  · simp only [Group.GetConnById, Group.GetGroupMap, hself]
  · intro id' hne
    have h1 := index_eq_none_iff g'.groupMap id'
    have h2 := index_eq_none_iff g.groupMap id'
    rw [hother id' hne] at h1
    constructor
    · intro hin
      by_contra hout
      exact (h1.mp (h2.mpr hout)) hin
    · intro hin
      by_contra hout
      exact (h2.mp (h1.mpr hout)) hin

/-- C7 at a concrete input: adding "b" with conn2 to the group of capacity 2
that holds "a". -/
theorem AddNewConnWithId_success_frame_witness :
    (groupWith (some tableA) 2).AddNewConnWithId "b" conn2
      = Result.ret none (groupWith (some tableAB) 2) ∧
    index (groupWith (some tableAB) 2).groupMap "b" = some conn2 ∧
    (groupWith (some tableAB) 2).GetConnById "b" = (conn2, none, groupWith (some tableAB) 2) ∧
    index (groupWith (some tableAB) 2).groupMap "a"
      = index (groupWith (some tableA) 2).groupMap "a" :=
  have h := AddNewConnWithId_success_frame (groupWith (some tableA) 2)
    (groupWith (some tableAB) 2) "b" conn2 rfl
  ⟨rfl, h.2.1, h.2.2.1, h.2.2.2.1 "a" (by decide)⟩

/-- C8: `DeleteConnById(id)` returns `IdNotFound` if and only if `id` is not a
key of the member map, and then the group is unchanged; otherwise it returns
nil, `id` is no longer a key and every other key keeps its value.  A second
`DeleteConnById(id)` right after the first always returns `IdNotFound`. -/
theorem DeleteConnById_spec (g : Group) (id : String) :
    ((g.DeleteConnById id).1 = some Err.IdNotFound ↔ id ∉ keysOf g.groupMap) ∧
    (id ∉ keysOf g.groupMap → g.DeleteConnById id = (some Err.IdNotFound, g)) ∧
    (id ∈ keysOf g.groupMap →
      (g.DeleteConnById id).1 = none ∧
      id ∉ keysOf (g.DeleteConnById id).2.groupMap ∧
      ∀ id', id' ≠ id →
        index (g.DeleteConnById id).2.groupMap id' = index g.groupMap id') ∧
    ((g.DeleteConnById id).2.DeleteConnById id).1 = some Err.IdNotFound := by
  have hnone : ∀ g0 : Group, index g0.groupMap id = none →
      g0.DeleteConnById id = (some Err.IdNotFound, g0) := by
    intro g0 h0
    simp only [Group.DeleteConnById, Group.GetGroupMap, h0]
  have hsome : ∀ v, index g.groupMap id = some v →
      g.DeleteConnById id = (none, { g with groupMap := delete g.groupMap id }) := by
    intro v hv
    simp only [Group.DeleteConnById, Group.GetGroupMap, hv]
  have hkey := index_eq_none_iff g.groupMap id
  cases hidx : index g.groupMap id with
  | none =>
    have hout : id ∉ keysOf g.groupMap := hkey.mp hidx
    rw [hnone g hidx]
    refine ⟨⟨fun _ => hout, fun _ => rfl⟩, fun _ => rfl, fun hin => absurd hin hout, ?_⟩
    rw [hnone g hidx]
  | some v =>
    have hin : id ∈ keysOf g.groupMap := by
      by_contra hout
      rw [hkey.mpr hout] at hidx
      cases hidx
    rw [hsome v hidx]
    have hgone : index (delete g.groupMap id) id = none := index_delete_self g.groupMap id
    refine ⟨⟨fun h => (by cases h), fun hout => absurd hin hout⟩, fun hout => absurd hin hout,
      fun _ => ⟨rfl, (index_eq_none_iff _ id).mp hgone, fun id' hne => index_delete_ne _ hne⟩, ?_⟩
    rw [hnone _ hgone]

/-- C9: `GetConnById(id)` returns `(nil, IdNotFound)` if and only if `id` is not
a key of the member map; otherwise it returns the stored value with the nil
error.  In both cases the group after the call is the group before it. -/
theorem GetConnById_spec (g : Group) (id : String) :
    (((g.GetConnById id).1 = Value.nil ∧ (g.GetConnById id).2.1 = some Err.IdNotFound)
      ↔ id ∉ keysOf g.groupMap) ∧
    (∀ v, index g.groupMap id = some v → g.GetConnById id = (v, none, g)) ∧
    (id ∈ keysOf g.groupMap → ∃ v, index g.groupMap id = some v ∧
      g.GetConnById id = (v, none, g)) ∧
    (g.GetConnById id).2.2 = g := by
  have hkey := index_eq_none_iff g.groupMap id
  cases hidx : index g.groupMap id with
  | none =>
    have hout : id ∉ keysOf g.groupMap := hkey.mp hidx
    have hget : g.GetConnById id = (Value.nil, some Err.IdNotFound, g) := by
      simp only [Group.GetConnById, Group.GetGroupMap, hidx]
    rw [hget]
    exact ⟨⟨fun _ => hout, fun _ => ⟨rfl, rfl⟩⟩, fun v hv => (by cases hv),
      fun hin => absurd hin hout, rfl⟩
  | some w =>
    have hin : id ∈ keysOf g.groupMap := by
      by_contra hout
      rw [hkey.mpr hout] at hidx
      cases hidx
    have hget : g.GetConnById id = (w, none, g) := by
      simp only [Group.GetConnById, Group.GetGroupMap, hidx]
    rw [hget]
    refine ⟨⟨fun h => (by cases h.2), fun hout => absurd hin hout⟩, ?_, fun _ => ⟨w, rfl, rfl⟩, rfl⟩
    intro v hv
    injection hv with hv
    rw [hv]

end group

/-! ## The registry -/

namespace group

/-- C10: for an initialized registry and a group `g` (the target of the pointer
`p`), `RegisterGroup` returns `DuplicatedId` if and only if `g.id` is already a
key of the registry, and then the state is unchanged; otherwise it returns nil,
the registry maps `g.id` to `p` and every other key is as before.  After such a
registration, registering any group with the same id returns `DuplicatedId`,
leaves the state unchanged, and the id is still mapped to `p`. -/
theorem RegisterGroup_spec (s : State) (t : Table Ptr) (ctx : Context) (p : Ptr) (g : Group)
    (hs : s.groups = some t) (hp : s.heap p = some g) :
    ((∃ s', RegisterGroup s ctx p = Result.ret (some Err.DuplicatedId) s')
      ↔ g.id ∈ keysOf s.groups) ∧
    (g.id ∈ keysOf s.groups → RegisterGroup s ctx p = Result.ret (some Err.DuplicatedId) s) ∧
    (g.id ∉ keysOf s.groups →
      ∃ s', RegisterGroup s ctx p = Result.ret none s' ∧
        s'.heap = s.heap ∧
        index s'.groups g.id = some p ∧
        (∀ k, k ≠ g.id → index s'.groups k = index s.groups k) ∧
        (∀ (p2 : Ptr) (g2 : Group), s'.heap p2 = some g2 → g2.id = g.id →
          RegisterGroup s' ctx p2 = Result.ret (some Err.DuplicatedId) s')) := by
  have hkey := index_eq_none_iff s.groups g.id
  have hdup : ∀ (s0 : State) (p0 : Ptr) (g0 : Group) (v : Ptr), s0.heap p0 = some g0 →
      index s0.groups g0.id = some v →
      RegisterGroup s0 ctx p0 = Result.ret (some Err.DuplicatedId) s0 := by
    intro s0 p0 g0 v h0 hv
    simp only [RegisterGroup, h0, hv]
  cases hidx : index s.groups g.id with
  | some v =>
    have hin : g.id ∈ keysOf s.groups := by
      by_contra hout
      rw [hkey.mpr hout] at hidx
      cases hidx
    have hret := hdup s p g v hp hidx
    exact ⟨⟨fun _ => hin, fun _ => ⟨s, hret⟩⟩, fun _ => hret, fun hout => absurd hin hout⟩
  | none =>
    have hout : g.id ∉ keysOf s.groups := hkey.mp hidx
    have hret : RegisterGroup s ctx p
        = Result.ret none { s with groups := some (t.insert g.id p) } := by
      have hidx' : index (some t) g.id = none := hs ▸ hidx
      simp only [RegisterGroup, hp, hs, hidx']
    refine ⟨⟨?_, fun hin => absurd hin hout⟩, fun hin => absurd hin hout, fun _ => ?_⟩
    · rintro ⟨s', hs'⟩
      rw [hret] at hs'
      injection hs' with herr _
      cases herr
    · refine ⟨_, hret, rfl, Table.get_insert_self t g.id p, ?_, ?_⟩
      · intro k hne
        rw [hs]
        exact Table.get_insert_ne t p hne
      · intro p2 g2 hp2 hid
        refine hdup _ p2 g2 p hp2 ?_
        rw [hid]
        exact Table.get_insert_self t g.id p

/-- C10 at a concrete input: two distinct groups with the empty id are
registered in a row in an empty registry; the first call returns nil, the
second returns `DuplicatedId`, and the empty id is mapped to the first group. -/
theorem RegisterGroup_spec_witness :
    twoGroupsState.groups = some Table.empty ∧
    twoGroupsState.heap 1 = some (groupWith none 0) ∧
    RegisterGroup twoGroupsState Context.background 1
      = Result.ret none firstRegisteredState ∧
    RegisterGroup firstRegisteredState Context.background 2
      = Result.ret (some Err.DuplicatedId) firstRegisteredState ∧
    index firstRegisteredState.groups "" = some 1 := by
  obtain ⟨s', hreg, _, hidx, _, hsecond⟩ :=
    (RegisterGroup_spec twoGroupsState Table.empty Context.background 1 (groupWith none 0)
      rfl rfl).2.2 (by decide)
  have hs' : s' = firstRegisteredState := by
    have h : RegisterGroup twoGroupsState Context.background 1
        = Result.ret none firstRegisteredState := rfl
    rw [h] at hreg
    injection hreg with _ hst
    exact hst.symm
  rw [hs'] at hreg hidx hsecond
  exact ⟨rfl, rfl, hreg, hsecond 2 (groupWith (some tableA) 5) rfl rfl, hidx⟩

end group

/-! ## Shared facts on the return paths -/

namespace group

/-- A call of `AddNewConnWithId` that returns an error leaves the group as it
was. -/
theorem AddNewConnWithId_error_inv {g g' : Group} {id : String} {key : Value} {e : Err}
    (hadd : g.AddNewConnWithId id key = Result.ret (some e) g') : g' = g := by
  unfold Group.AddNewConnWithId at hadd
  simp only at hadd
  split at hadd
  · injection hadd with _ hst
    exact hst.symm
  · split at hadd
    · injection hadd with _ hst
      exact hst.symm
    · split at hadd
      · cases hadd
      · injection hadd with herr _
        cases herr

/-- The two return paths of `DeleteConnById`. -/
theorem DeleteConnById_cases (g : Group) (id : String) :
    (index g.groupMap id = none ∧ g.DeleteConnById id = (some Err.IdNotFound, g)) ∨
    (∃ v, index g.groupMap id = some v ∧
      g.DeleteConnById id = (none, { g with groupMap := delete g.groupMap id })) := by
  cases hidx : index g.groupMap id with
  | none =>
    left
    exact ⟨rfl, by simp only [Group.DeleteConnById, Group.GetGroupMap, hidx]⟩
  | some v =>
    right
    exact ⟨v, rfl, by simp only [Group.DeleteConnById, Group.GetGroupMap, hidx]⟩

/-- A call of `GetConnById` leaves the group as it was. -/
theorem GetConnById_state (g : Group) (id : String) : (g.GetConnById id).2.2 = g := by
  unfold Group.GetConnById
  simp only
  split <;> rfl

/-- A call of `RegisterGroup` that returns leaves the heap as it was, and the
whole state when it returns an error. -/
theorem RegisterGroup_ret_inv {s s' : State} {ctx : Context} {p : Ptr} {e : error}
    (hreg : RegisterGroup s ctx p = Result.ret e s') :
    s'.heap = s.heap ∧ (e ≠ none → s' = s) := by
  unfold RegisterGroup at hreg
  split at hreg
  · cases hreg
  · split at hreg
    · injection hreg with _ hst
      rw [← hst]
      exact ⟨rfl, fun _ => rfl⟩
    · split at hreg
      · cases hreg
      · injection hreg with herr hst
        rw [← hst, ← herr]
        exact ⟨rfl, fun h => absurd rfl h⟩

end group

/-! ## The start state and the built groups -/

namespace group

/-- C11, the code at the failing input: in the state at process start, where
`groups` has the value of its declaration (the nil map), `RegisterGroup` panics
for every heap and every group pointer; it neither returns nil nor stores an
entry. -/
theorem RegisterGroup_at_start_panics (heap : Ptr → Option Group) (ctx : Context) (p : Ptr) :
    RegisterGroup (startState heap) ctx p = Result.panic := by
  unfold RegisterGroup
  simp only [startState, groups, index]
  split <;> rfl

/-- C12, the code at the failing input: every builder returns the nil error,
and on the group it returns (member map nil, capacity 0) a call of
`AddNewConnWithId` with any id and a valid handle, a connection or a group
pointer, panics. -/
theorem built_group_add_panics (ctx : Context) (u : Option Upgrader)
    (opts : List GroupOption) (id : String) (c : Nat) (p : Ptr) :
    (NewDefaultGroupAndUpgrader opts).2 = none ∧
    (NewDefaultGroupWithContextAndUpgrader ctx opts).2 = none ∧
    (NewGroupWithContext ctx u opts).2 = none ∧
    (NewDefaultGroupAndUpgrader opts).1.groupMap = none ∧
    (NewDefaultGroupAndUpgrader opts).1.maxConnCnt = 0 ∧
    (NewDefaultGroupAndUpgrader opts).1.AddNewConnWithId id (Value.conn c) = Result.panic ∧
    (NewDefaultGroupAndUpgrader opts).1.AddNewConnWithId id (Value.groupPtr p) = Result.panic ∧
    (NewDefaultGroupWithContextAndUpgrader ctx opts).1.AddNewConnWithId id (Value.conn c)
      = Result.panic ∧
    (NewGroupWithContext ctx u opts).1.AddNewConnWithId id (Value.conn c) = Result.panic ∧
    (NewGroupWithContext ctx u opts).1.AddNewConnWithId id (Value.groupPtr p) = Result.panic :=
  ⟨rfl, rfl, rfl, rfl, rfl, rfl, rfl, rfl, rfl, rfl⟩

/-- C13: `AddNewConnWithId`, `DeleteConnById` and `GetConnById` leave the
configuration fields (id, maxConnCnt, heartCheck, maxConnDuration, WsUpgrader
and the two hooks) as they were, whatever they return; `GetGroupMap` returns
the member map field; and `RegisterGroup`, when it returns, leaves every group
of the heap, the one it is given included, as it was. -/
theorem configuration_frame (g : Group) (id : String) (key : Value) (s : State)
    (ctx : Context) (p : Ptr) :
    (∀ e g', g.AddNewConnWithId id key = Result.ret e g' → sameConfig g g') ∧
    sameConfig g (g.DeleteConnById id).2 ∧
    sameConfig g (g.GetConnById id).2.2 ∧
    g.GetGroupMap = g.groupMap ∧
    (∀ e s', RegisterGroup s ctx p = Result.ret e s' → s'.heap = s.heap ∧ s'.heap p = s.heap p) := by
  have hrefl : ∀ g0 : Group, sameConfig g0 g0 := fun _ => ⟨rfl, rfl, rfl, rfl, rfl, rfl, rfl⟩
  refine ⟨?_, ?_, ?_, rfl, ?_⟩
  · intro e g' hadd
    cases e with
    | none =>
      obtain ⟨_, _, t, _, hg'⟩ := AddNewConnWithId_success_inv hadd
      rw [hg']
      exact ⟨rfl, rfl, rfl, rfl, rfl, rfl, rfl⟩
    | some e =>
      rw [AddNewConnWithId_error_inv hadd]
      exact hrefl g
  · rcases DeleteConnById_cases g id with ⟨_, h⟩ | ⟨v, _, h⟩
    · rw [h]
      exact hrefl g
    · rw [h]
      exact ⟨rfl, rfl, rfl, rfl, rfl, rfl, rfl⟩
  · rw [GetConnById_state]
    exact hrefl g
  · intro e s' hreg
    have h := (RegisterGroup_ret_inv hreg).1
    exact ⟨h, by rw [h]⟩

end group

/-! ## Calls in a row -/

namespace group

/-- A call of `AddNewConnWithId` with a valid key on a group whose member map is
allocated and whose count is not above the capacity succeeds with the one
write. -/
theorem AddNewConnWithId_success_of {g : Group} {t : Table Value} (id : String) {key : Value}
    (hm : g.groupMap = some t) (hk : ¬ invalidKey key)
    (hcap : ¬ (len g.groupMap : Int) > g.maxConnCnt) :
    g.AddNewConnWithId id key
      = Result.ret none { g with groupMap := some (t.insert id key) } := by
  unfold invalidKey at hk
  have hcap' : ¬ (len (some t) : Int) > g.maxConnCnt := hm ▸ hcap
  simp only [Group.AddNewConnWithId, hk, if_false, Group.GetGroupMap, hm, hcap']

/-- Calls with valid keys, run one after the other, all succeed as long as the
count at the start plus the number of calls is at most the capacity plus one. -/
theorem addAll_all_succeed (calls : List (String × Value)) :
    ∀ (g : Group) (t : Table Value), g.groupMap = some t →
      (∀ c ∈ calls, ¬ invalidKey c.2) →
      (t.size : Int) + calls.length ≤ g.maxConnCnt + 1 →
      ∃ gf, addAll g calls = some (List.replicate calls.length none, gf) := by
  induction calls with
  | nil =>
    intro g t _ _ _
    exact ⟨g, rfl⟩
  | cons c rest ih =>
    intro g t hm hvalid hbound
    have hk : ¬ invalidKey c.2 := hvalid c (List.mem_cons_self c rest)
    have hlen : len g.groupMap = t.size := by rw [hm]; rfl
    have hcap : ¬ (len g.groupMap : Int) > g.maxConnCnt := by
      rw [hlen]
      simp only [List.length_cons, Nat.cast_add, Nat.cast_one] at hbound
      omega
    have hadd := AddNewConnWithId_success_of c.1 hm hk hcap
    have hsize := Table.size_insert_le t c.1 c.2
    obtain ⟨gf, hgf⟩ := ih { g with groupMap := some (t.insert c.1 c.2) } (t.insert c.1 c.2) rfl
      (fun d hd => hvalid d (List.mem_cons_of_mem c hd))
      (by
        simp only [List.length_cons, Nat.cast_add, Nat.cast_one] at hbound
        show ((t.insert c.1 c.2).size : Int) + rest.length ≤ g.maxConnCnt + 1
        omega)
    refine ⟨gf, ?_⟩
    simp only [addAll, hadd, hgf, List.length_cons, List.replicate_succ]

/-- C14, the code on a schedule that runs the calls one after the other: for
every list of N calls of `AddNewConnWithId` with valid handles, in any order,
on the empty group of capacity N - 1, every call returns the nil error; there
are N successes and no `OutOfMaxCnt`, where the claim says N - 1 and one. -/
theorem sequential_adds_all_succeed (calls : List (String × Value))
    (hvalid : ∀ c ∈ calls, ¬ invalidKey c.2) :
    ∃ gf, addAll (groupWith (some Table.empty) ((calls.length : Int) - 1)) calls
      = some (List.replicate calls.length none, gf) := by
  refine addAll_all_succeed calls _ Table.empty rfl hvalid ?_
  show ((0 : Nat) : Int) + calls.length ≤ ((calls.length : Int) - 1) + 1
  omega

/-- C14 at a concrete input: N = 3, the calls for "a", "b" and "c" on the empty
group of capacity 2 return nil, nil, nil and leave three members. -/
theorem sequential_adds_all_succeed_witness :
    (∀ c ∈ [("a", conn1), ("b", conn2), ("c", conn3)], ¬ invalidKey c.2) ∧
    (∃ gf, addAll (groupWith (some Table.empty) 2) [("a", conn1), ("b", conn2), ("c", conn3)]
      = some ([none, none, none], gf)) ∧
    addAll (groupWith (some Table.empty) 2) [("a", conn1), ("b", conn2), ("c", conn3)]
      = some ([none, none, none], groupWith (some tableABC) 2) := by
  have hvalid : ∀ c ∈ [("a", conn1), ("b", conn2), ("c", conn3)], ¬ invalidKey c.2 := by
    intro c hc
    simp only [List.mem_cons, List.mem_singleton, List.not_mem_nil, or_false] at hc
    rcases hc with rfl | rfl | rfl <;> (unfold invalidKey; decide)
  exact ⟨hvalid,
    sequential_adds_all_succeed [("a", conn1), ("b", conn2), ("c", conn3)] hvalid, rfl⟩

end group

/-! ## Overwriting, the default list, the capacity decision -/

namespace group

/-- C15: when `id` is a member and `AddNewConnWithId(id, h2)` succeeds, the map
has exactly one entry for `id`, its value is `h2`, no key occurs twice, and the
member count is the same as before the call. -/
theorem AddNewConnWithId_overwrites (g g' : Group) (id : String) (h1 h2 : Value)
    (hmem : index g.groupMap id = some h1)
    (hadd : g.AddNewConnWithId id h2 = Result.ret none g') :
    index g'.groupMap id = some h2 ∧
    (keysOf g'.groupMap).count id = 1 ∧
    (keysOf g'.groupMap).Nodup ∧
    len g'.groupMap = len g.groupMap := by
  obtain ⟨_, _, t, hm, hg'⟩ := AddNewConnWithId_success_inv hadd
  have hin : id ∈ t.keys := by
    by_contra hout
    have hnone := (Table.get_eq_none_iff t id).mpr hout
    rw [hm] at hmem
    have hget : t.get id = some h1 := hmem
    rw [hnone] at hget
    cases hget
  have hself : (t.insert id h2).get id = some h2 := Table.get_insert_self t id h2
  have hin' : id ∈ (t.insert id h2).keys := by
    by_contra hout
    rw [(Table.get_eq_none_iff _ id).mpr hout] at hself
    cases hself
  have hnd : (t.insert id h2).keys.Nodup := (t.insert id h2).nodup
  rw [hg', hm]
  exact ⟨hself, List.count_eq_one_of_mem hnd hin', hnd, Table.size_insert_of_mem t h2 hin⟩

/-- C15 at a concrete input: "c" is added again, with conn1, to the group of
capacity 2 that holds "b" and "c". -/
theorem AddNewConnWithId_overwrites_witness :
    index (groupWith (some tableBC) 2).groupMap "c" = some conn3 ∧
    (∃ g', (groupWith (some tableBC) 2).AddNewConnWithId "c" conn1 = Result.ret none g' ∧
      index g'.groupMap "c" = some conn1 ∧ len g'.groupMap = 2) :=
  ⟨rfl, _, rfl,
    (AddNewConnWithId_overwrites (groupWith (some tableBC) 2) _ "c" conn3 conn1 rfl rfl).1,
    (AddNewConnWithId_overwrites (groupWith (some tableBC) 2) _ "c" conn3 conn1 rfl rfl).2.2.2⟩

/-- C16: `appendDefault(opts)` has length `len(opts) + 6`, starts with `opts` in
the same order, and ends with the six default options in the order of the
source: the default upgrader, the empty id, one minute, 100, 720 hours, and the
nil member map. -/
theorem appendDefault_spec (opts : List GroupOption) :
    (appendDefault opts).length = opts.length + 6 ∧
    (appendDefault opts).take opts.length = opts ∧
    (appendDefault opts).drop opts.length =
      [GroupOption.WithUpgrader (some Upgrader.wrappedGorilla),
       GroupOption.WithGroupId "", GroupOption.WithHeartCheck (60 * 1000000000),
       GroupOption.WithMaxConnCnt 100, GroupOption.WithMaxConnDuration (720 * time.Hour),
       GroupOption.WithGroupMap none] := by
  have hdur : time.Hour * 24 * 30 = 720 * time.Hour := by
    unfold time.Hour time.Minute
    decide
  refine ⟨?_, ?_, ?_⟩
  · simp [appendDefault]
  · simp [appendDefault]
  · simp only [appendDefault, List.drop_left, hdur]
    rfl

end group

namespace group

/-- C17 as stated fails on a group without a member map: for the zero group
(nil member map, capacity 0) and a valid handle the count is not above the
capacity, and the call does not succeed, it panics. -/
theorem AddNewConnWithId_nil_map_not_success :
    ¬ invalidKey conn1 ∧
    ¬ ((len zeroGroup.groupMap : Int) > zeroGroup.maxConnCnt) ∧
    zeroGroup.AddNewConnWithId "a" conn1 = Result.panic ∧
    ¬ ∃ g', zeroGroup.AddNewConnWithId "a" conn1 = Result.ret none g' := by
  refine ⟨by unfold invalidKey; decide, by decide, rfl, ?_⟩
  rintro ⟨g', hg'⟩
  have hp : zeroGroup.AddNewConnWithId "a" conn1 = Result.panic := rfl
  rw [hp] at hg'
  cases hg'

/-- C17, amended: for every group whose member map is allocated and every valid
handle, `AddNewConnWithId` returns `OutOfMaxCnt` exactly when
`len(groupMap) > maxConnCnt`, leaving the group as it was, and succeeds with
the one write otherwise; the id, member or not, plays no part in the decision. -/
theorem AddNewConnWithId_capacity_decision (g : Group) (t : Table Value) (id : String)
    (key : Value) (hm : g.groupMap = some t) (hk : ¬ invalidKey key) :
    ((∃ g', g.AddNewConnWithId id key = Result.ret (some Err.OutOfMaxCnt) g')
      ↔ (len g.groupMap : Int) > g.maxConnCnt) ∧
    ((len g.groupMap : Int) > g.maxConnCnt →
      g.AddNewConnWithId id key = Result.ret (some Err.OutOfMaxCnt) g) ∧
    (¬ (len g.groupMap : Int) > g.maxConnCnt →
      g.AddNewConnWithId id key
        = Result.ret none { g with groupMap := some (t.insert id key) }) := by
  have hfull : (len g.groupMap : Int) > g.maxConnCnt →
      g.AddNewConnWithId id key = Result.ret (some Err.OutOfMaxCnt) g := by
    intro hcap
    unfold invalidKey at hk
    simp only [Group.AddNewConnWithId, hk, if_false, hcap, if_true]
  have hfree := fun hcap => AddNewConnWithId_success_of id hm hk hcap
  refine ⟨⟨?_, fun hcap => ⟨g, hfull hcap⟩⟩, hfull, hfree⟩
  rintro ⟨g', hg'⟩
  by_contra hcap
  rw [hfree hcap] at hg'
  injection hg' with herr _
  cases herr

/-- C17 amended, at a concrete input: the group of capacity 2 holds 3 members;
replacing the handle of the member "a" is rejected with `OutOfMaxCnt`. -/
theorem AddNewConnWithId_capacity_decision_witness :
    index (groupWith (some tableABC) 2).groupMap "a" = some conn1 ∧
    ¬ invalidKey conn3 ∧
    (groupWith (some tableABC) 2).AddNewConnWithId "a" conn3
      = Result.ret (some Err.OutOfMaxCnt) (groupWith (some tableABC) 2) := by
  have hk : ¬ invalidKey conn3 := by unfold invalidKey; decide
  exact ⟨rfl, hk,
    (AddNewConnWithId_capacity_decision (groupWith (some tableABC) 2) tableABC "a" conn3
      rfl hk).2.1 (by decide)⟩

/-- C18: when `id` is not a member and `AddNewConnWithId(id, h)` succeeds, the
`DeleteConnById(id)` that follows returns nil and leaves the group of before the
add: the same member map, with the same keys, values and count. -/
theorem add_then_delete_roundtrip (g g' : Group) (id : String) (h : Value)
    (hnew : id ∉ keysOf g.groupMap)
    (hadd : g.AddNewConnWithId id h = Result.ret none g') :
    g'.DeleteConnById id = (none, g) ∧
    (g'.DeleteConnById id).2.groupMap = g.groupMap ∧
    len (g'.DeleteConnById id).2.groupMap = len g.groupMap := by
  obtain ⟨_, _, t, hm, hg'⟩ := AddNewConnWithId_success_inv hadd
  have hout : id ∉ t.keys := by
    rw [hm] at hnew
    exact hnew
  have hdel : g'.DeleteConnById id = (none, g) := by
    rcases DeleteConnById_cases g' id with ⟨hnone, _⟩ | ⟨v, _, hd⟩
    · rw [hg'] at hnone
      have hself : (t.insert id h).get id = some h := Table.get_insert_self t id h
      have hnone' : (t.insert id h).get id = none := hnone
      rw [hself] at hnone'
      cases hnone'
    · rw [hd, hg']
      have hback : delete (some (t.insert id h)) id = some t :=
        congrArg some (Table.erase_insert_of_not_mem t h hout)
      simp only [hback]
      cases g
      cases hm
      rfl
  rw [hdel]
  exact ⟨rfl, rfl, rfl⟩

/-- C18 at a concrete input: "c" is added to the group of capacity 3 that holds
"a" and "b", then deleted. -/
theorem add_then_delete_roundtrip_witness :
    "c" ∉ keysOf (groupWith (some tableAB) 3).groupMap ∧
    (groupWith (some tableAB) 3).AddNewConnWithId "c" conn3
      = Result.ret none (groupWith (some tableABC) 3) ∧
    (groupWith (some tableABC) 3).DeleteConnById "c" = (none, groupWith (some tableAB) 3) :=
  ⟨by decide, rfl,
    (add_then_delete_roundtrip (groupWith (some tableAB) 3) (groupWith (some tableABC) 3)
      "c" conn3 (by decide) rfl).1⟩

/-- C19: a call of `AddNewConnWithId`, `DeleteConnById`, `GetConnById` or
`RegisterGroup` that returns a non-nil error leaves the state it works on as it
was: the group, its member map included, for the three methods, and the package
state, the registry table included, for `RegisterGroup`. -/
theorem error_leaves_state (g : Group) (id : String) (key : Value) (s : State)
    (ctx : Context) (p : Ptr) :
    (∀ e g', g.AddNewConnWithId id key = Result.ret (some e) g' → g' = g) ∧
    (∀ e, (g.DeleteConnById id).1 = some e → (g.DeleteConnById id).2 = g) ∧
    (∀ e, (g.GetConnById id).2.1 = some e → (g.GetConnById id).2.2 = g) ∧
    (∀ e s', RegisterGroup s ctx p = Result.ret (some e) s' → s' = s ∧ s'.groups = s.groups) := by
  refine ⟨fun e g' hadd => AddNewConnWithId_error_inv hadd, ?_,
    fun _ _ => GetConnById_state g id, ?_⟩
  · intro e he
    rcases DeleteConnById_cases g id with ⟨_, hd⟩ | ⟨v, _, hd⟩
    · rw [hd]
    · rw [hd] at he
      cases he
  · intro e s' hreg
    have hs' : s' = s := (RegisterGroup_ret_inv hreg).2 (fun h => by cases h)
    exact ⟨hs', by rw [hs']⟩

end group
